import Mathlib

/-!
Verification of the palette-cut video color pipeline.

The source program (src/src/utils/videoProcessor.js and the extended
variant in src/unnamed/part_000) samples frames of a video, averages each
frame to a single RGB color, and analyzes the resulting color sequence
via incremental clustering.  JS numbers are embedded as exact rationals
(ℚ); `Math.round` is half-up rounding `⌊q + 1/2⌋`; the comparison
`colorDistance(c1,c2) < THRESHOLD` (i.e. `sqrt(dsq) < 30`) is embedded as
the equivalent rational comparison `dsq < 900`, justified by
`colorDistance_lt_iff` below.
-/

namespace PaletteCut

/-- An RGB color as the JS objects `{r, g, b}`; channels are JS numbers,
embedded as rationals (cluster centroids become fractional). -/
structure Color where
  r : ℚ
  g : ℚ
  b : ℚ
deriving DecidableEq, Repr

/-- An RGB color with integer channels, the result of rounding. -/
structure IntColor where
  r : ℤ
  g : ℤ
  b : ℤ
deriving DecidableEq, Repr

/-- JS `Math.round` on a rational: half-up rounding.  Defined via integer
floor-division so that it evaluates by `decide`; `jsRound_eq_floor` shows
it is `⌊q + 1/2⌋`. -/
def jsRound (q : ℚ) : ℤ :=
  (2 * q.num + (q.den : ℤ)) / ((2 * q.den : ℕ) : ℤ)

/-- Channel-wise `Math.round` of a color. -/
def roundColor (c : Color) : IntColor :=
  ⟨jsRound c.r, jsRound c.g, jsRound c.b⟩

/-- The squared Euclidean RGB distance.  The source's `colorDistance`
takes the square root of this; every use in the source only compares the
distance against the constant 30, which is equivalent to comparing this
square against 900 (`colorDistance_lt_iff`). -/
def distSq (c1 c2 : Color) : ℚ :=
  (c1.r - c2.r) ^ 2 + (c1.g - c2.g) ^ 2 + (c1.b - c2.b) ^ 2

/-- A cluster as built by `analyzeColors`: running centroid and
membership count. -/
structure Cluster where
  center : Color
  count : ℕ
deriving DecidableEq, Repr

/-- The centroid/count update applied when a color joins a cluster
(videoProcessor.js lines 53–57): `count++` first, then
`center = (center * (count - 1) + color) / count` channel-wise. -/
def updateCluster (cl : Cluster) (color : Color) : Cluster :=
  ⟨⟨(cl.center.r * cl.count + color.r) / (cl.count + 1),
    (cl.center.g * cl.count + color.g) / (cl.count + 1),
    (cl.center.b * cl.count + color.b) / (cl.count + 1)⟩,
   cl.count + 1⟩

/-- One iteration of the `colors.forEach` clustering loop
(videoProcessor.js lines 49–65): scan clusters in creation order, join
the first one whose centroid is within distance 30, otherwise append a
new cluster holding a copy of the color with count 1. -/
def assign : List Cluster → Color → List Cluster
  | [], color => [⟨color, 1⟩]
  | cl :: rest, color =>
    if distSq color cl.center < 900 then
      updateCluster cl color :: rest
    else
      cl :: assign rest color

/-- The full clustering pass over the input sequence. -/
def buildClusters (colors : List Color) : List Cluster :=
  colors.foldl assign []

/-- The JS sort comparator `(a, b) => b.count - a.count`: `a` may precede
`b` iff `b.count ≤ a.count` (descending count). -/
def clusterGE (a b : Cluster) : Prop :=
  b.count ≤ a.count

instance : DecidableRel clusterGE := fun a b => Nat.decLe b.count a.count

instance : IsTotal Cluster clusterGE := ⟨fun a b => Nat.le_total b.count a.count⟩

instance : IsTrans Cluster clusterGE := ⟨fun _ _ _ h1 h2 => Nat.le_trans h2 h1⟩

/-- The `clusters.sort((a, b) => b.count - a.count)` call: a
comparator-ordered stable sort, modelled by insertion sort (ES2019
requires `Array.prototype.sort` to be stable). -/
def sortClusters (clusters : List Cluster) : List Cluster :=
  List.insertionSort clusterGE clusters

/-- The result object of `analyzeColors`. -/
structure Analysis where
  average : IntColor
  dominant : IntColor
  least : IntColor
deriving DecidableEq, Repr

/-- The `totalR` accumulator of `analyzeColors` (lines 32–37). -/
def totalR (colors : List Color) : ℚ := colors.foldl (fun acc c => acc + c.r) 0

/-- The `totalG` accumulator of `analyzeColors` (lines 32–37). -/
def totalG (colors : List Color) : ℚ := colors.foldl (fun acc c => acc + c.g) 0

/-- The `totalB` accumulator of `analyzeColors` (lines 32–37). -/
def totalB (colors : List Color) : ℚ := colors.foldl (fun acc c => acc + c.b) 0

/-- `analyzeColors` (videoProcessor.js lines 28–78, identical in
src/unnamed/part_000 lines 32–79): `null` on empty input, otherwise the
rounded global mean, plus the rounded centroids of the first and last
cluster after sorting by descending count.  The inner `[] => none`
branch is unreachable (clusters are nonempty for nonempty input, see
`sortClusters_buildClusters_ne_nil`). -/
def analyzeColors (colors : List Color) : Option Analysis :=
  match colors with
  | [] => none
  | _ :: _ =>
    let len : ℚ := colors.length
    let average : IntColor :=
      ⟨jsRound (totalR colors / len), jsRound (totalG colors / len),
       jsRound (totalB colors / len)⟩
    match sortClusters (buildClusters colors) with
    | [] => none
    | c :: rest =>
      some ⟨average, roundColor c.center,
            roundColor (((c :: rest).getLast (List.cons_ne_nil c rest)).center)⟩

/-! ### Specification-side definitions (for refinement claims) -/

/-- Modelled from the spec's words (§4.3): find the index of the first
cluster, in creation order, whose centroid is within the distance
threshold of the incoming color; update that cluster's centroid via
`center += (color - center) / newCount` and increment its count; if no
cluster qualifies, append a new cluster with the color as centroid and
count 1. -/
def assignSpec (clusters : List Cluster) (color : Color) : List Cluster :=
  match clusters.findIdx? fun cl => decide (distSq color cl.center < 900) with
  | some i =>
    let cl := clusters.getD i ⟨color, 0⟩
    clusters.set i
      ⟨⟨cl.center.r + (color.r - cl.center.r) / (cl.count + 1),
        cl.center.g + (color.g - cl.center.g) / (cl.count + 1),
        cl.center.b + (color.b - cl.center.b) / (cl.count + 1)⟩,
       cl.count + 1⟩
  | none => clusters ++ [⟨color, 1⟩]

/-- The component-wise arithmetic mean of a list of colors (division by
zero on the empty list, as in ℚ, yields 0). -/
def meanColor (ms : List Color) : Color :=
  ⟨(ms.map Color.r).sum / ms.length,
   (ms.map Color.g).sum / ms.length,
   (ms.map Color.b).sum / ms.length⟩

/-! ### Heap model of the clustering loop (for the no-mutation claim)

JS objects are mutable references.  To state that `analyzeColors` never
mutates the color objects of its input array, the clustering loop — the
only part of the function containing writes — is re-embedded against an
explicit store of color objects: an address indexes the store, the input
array is a list of addresses, the `{ ...color }` copy is an allocation
of a fresh cell, and the centroid assignments
`cluster.center.r = …; cluster.center.g = …; cluster.center.b = …`
are a write to the cluster's own cell. -/

/-- A store of JS color objects; an address is an index into it. -/
structure Store where
  cells : List Color
deriving Repr

/-- Read the object at an address. -/
def Store.read (s : Store) (a : ℕ) : Color :=
  s.cells.getD a ⟨0, 0, 0⟩

/-- Overwrite the object at an address. -/
def Store.write (s : Store) (a : ℕ) (c : Color) : Store :=
  ⟨s.cells.set a c⟩

/-- Allocate a fresh object (the `{ ...color }` spread copy of line 63):
append a cell and return its address. -/
def Store.alloc (s : Store) (c : Color) : Store × ℕ :=
  (⟨s.cells ++ [c]⟩, s.cells.length)

/-- A cluster as held on the heap: the address of its mutable center
object, plus its count. -/
structure HCluster where
  centerAddr : ℕ
  count : ℕ
deriving Repr

/-- The `for (let cluster of clusters)` scan of one loop iteration, on
the heap: the updated store and cluster list when some cluster absorbed
the color, `none` when the scan fell through. -/
def scanClusters (s : Store) (color : Color) :
    List HCluster → Option (Store × List HCluster)
  | [] => none
  | cl :: rest =>
    if distSq color (s.read cl.centerAddr) < 900 then
      some (s.write cl.centerAddr
              (updateCluster ⟨s.read cl.centerAddr, cl.count⟩ color).center,
            ⟨cl.centerAddr, cl.count + 1⟩ :: rest)
    else
      match scanClusters s color rest with
      | some (s', rest') => some (s', cl :: rest')
      | none => none

/-- One iteration of the clustering loop on the heap: the body of
`colors.forEach` (videoProcessor.js lines 49–65), `addr` being the
reference the array holds. -/
def assignHeap (s : Store) (clusters : List HCluster) (addr : ℕ) :
    Store × List HCluster :=
  let color := s.read addr
  match scanClusters s color clusters with
  | some r => r
  | none =>
    let (s', a) := s.alloc color
    (s', clusters ++ [⟨a, 1⟩])

/-- The clustering pass of `analyzeColors` on the heap, the input array
being a list of addresses of color objects. -/
def buildClustersHeap (s : Store) (addrs : List ℕ) : Store × List HCluster :=
  addrs.foldl (fun acc a => assignHeap acc.1 acc.2 a) (s, [])

/-! ### The sampling pipeline (src/unnamed/part_000)

The pipeline is event-driven JS; it is embedded by fixing, in a
`VideoEnv`, the responses of the host (video element, canvas, FFmpeg
engine) that the run consumes, and computing the run's outcome from
them.  Decode errors of the native video element are modelled as
detected when metadata loads, before any seek. -/

/-- `video.duration` as reported by the host: a JS number, `NaN`
(metadata yielded no numeric duration) or `Infinity`. -/
inductive JsDuration where
  | nan
  | infinite
  | val (d : ℚ)
deriving DecidableEq, Repr

/-- The duration rejection test `!duration || duration === Infinity`
(part_000 line 149); `val 0` is falsy in JS, as is `NaN`. -/
def JsDuration.bad : JsDuration → Bool
  | .nan => true
  | .infinite => true
  | .val d => decide (d = 0)

/-- The error classes the pipeline rejects with.  The source rejects
with `Error` objects distinguished by message text:
`formatNotSupported` = "Format not supported" (native `onerror`,
part_000 line 141); `durationUnknown` = "Could not determine video
duration" (line 151); `userCancelled` = "Processing cancelled by user
due to file size." (line 209). -/
inductive PipelineError where
  | formatNotSupported
  | durationUnknown
  | userCancelled
deriving DecidableEq, Repr

/-- The fallback trigger of `processVideo` (part_000 line 114):
`err.message.includes("supported") || err.message.includes("video duration")
|| err.message.includes("format")`, evaluated on the message texts
above ("Format not supported" contains "supported"; "Could not
determine video duration" contains "video duration"; the cancellation
message contains none of the three substrings). -/
def fallbackEligible : PipelineError → Bool
  | .formatNotSupported => true
  | .durationUnknown => true
  | .userCancelled => false

/-- The host environment one sampling run interacts with. -/
structure VideoEnv where
  /-- the native video element fires `onerror` before metadata loads
  (unsupported container/codec), so no seek loop ever starts -/
  nativeDecodeFails : Bool
  /-- the native video element fires `onerror` during the seek loop —
  the handler (part_000 line 138) stays active for the whole run, so a
  mid-stream decode error (e.g. a corrupted signal, error code 3) can
  interrupt the loop: `some k` means the error fires after `k` frames
  were captured and reported (`k < 240`; a value ≥ 240 means the loop
  completed first), `none` means no such error -/
  nativeErrorAt : Option ℕ
  /-- `video.duration` reported at `onloadedmetadata` -/
  duration : JsDuration
  /-- native path: the frame average `getImageData` yields for frame `i`
  (0-based), or `none` when the pixel read throws (part_000 172–177) -/
  capture : ℕ → Option Color
  /-- `videoFile.size` in bytes -/
  size : ℕ
  /-- the user's answer to the large-file `confirm()` dialog -/
  confirmLarge : Bool
  /-- the `Duration: HH:MM:SS.ss` regex matches in the FFmpeg probe log,
  in order, as (hours, (minutes, seconds)) groups (part_000 219–228) -/
  logDurations : List (ℕ × ℕ × ℚ)
  /-- fallback path: the decoded frame average for the numbered output
  file `out%03d.png` with index `i`, or `none` when `readFile` or the
  decode throws (part_000 276–294) -/
  frames : ℕ → Option Color

/-- The sentinel pushed when a native frame capture fails
(part_000 line 176). -/
def blackColor : Color := ⟨0, 0, 0⟩

/-- The colors accumulated by the native seek loop: one entry per frame
index 0 ≤ i < 240, the frame average or the black sentinel. -/
def nativeColors (env : VideoEnv) : List Color :=
  (List.range 240).map fun i => (env.capture i).getD blackColor

/-- The seek times the native loop schedules for `video.currentTime`
(part_000 line 166): `min(interval * i, duration - 0.1)` for each of the
240 frames (a run interrupted by a mid-loop decode error issues a
prefix of them); no seek happens when the duration check rejects. -/
def nativeSeekTimes (env : VideoEnv) : List ℚ :=
  match env.duration with
  | .val d =>
    if d = 0 then []
    else (List.range 240).map fun i => min (d / 240 * i) (d - 1 / 10)
  | _ => []

/-- `processVideoNative` (part_000 lines 125–187): reject "Format not
supported" on a pre-metadata decode error, reject the unknown duration
at metadata time, reject "Format not supported" when a decode error
interrupts the seek loop, and otherwise resolve with all 240 colors. -/
def processVideoNative (env : VideoEnv) : Except PipelineError (List Color) :=
  if env.nativeDecodeFails then .error .formatNotSupported
  else if env.duration.bad then .error .durationUnknown
  else
    match env.nativeErrorAt with
    | some k => if k < 240 then .error .formatNotSupported else .ok (nativeColors env)
    | none => .ok (nativeColors env)

/-- The duration recovered from the FFmpeg probe log (part_000 218–232):
`duration` starts at 0 and each regex match overwrites it with
`hours * 3600 + minutes * 60 + seconds`, so the last match wins. -/
def probedDuration (env : VideoEnv) : ℚ :=
  env.logDurations.foldl (fun _ hms => hms.1 * 3600 + hms.2.1 * 60 + hms.2.2) 0

/-- The duration the fallback path proceeds with (part_000 234–245): the
probed duration, or the assumed 7200 s (2 hours) when `duration === 0`
(no usable probe result). -/
def ffmpegEffectiveDuration (env : VideoEnv) : ℚ :=
  if probedDuration env = 0 then 7200 else probedDuration env

/-- The frame rate passed to the extraction pass (part_000 line 252):
`FRAME_COUNT / duration`. -/
def ffmpegFps (env : VideoEnv) : ℚ :=
  240 / ffmpegEffectiveDuration env

/-- The numbered-file read loop (part_000 272–295): read `out%03d.png`
for i = 1, 2, …; stop at the first failed read (the `catch` does
`break`) or when the loop bound `FRAME_COUNT + 10` (250 iterations) runs
out.  `fuel` is the number of remaining iterations. -/
def readFrames (frames : ℕ → Option Color) : ℕ → ℕ → List Color
  | _, 0 => []
  | i, fuel + 1 =>
    match frames i with
    | some c => c :: readFrames frames (i + 1) fuel
    | none => []

/-- The large-file gate (part_000 206–211): files over `1024³` bytes
need an affirmative `confirm()`. -/
def largeFileCancelled (env : VideoEnv) : Bool :=
  decide (1024 * 1024 * 1024 < env.size) && !env.confirmLarge

/-- `processVideoFFmpeg` (part_000 lines 192–302): after the size gate,
probe the duration, extract numbered frames at `ffmpegFps`, and read
them back until one is missing. -/
def processVideoFFmpeg (env : VideoEnv) : Except PipelineError (List Color) :=
  if largeFileCancelled env then .error .userCancelled
  else
    let _duration := ffmpegEffectiveDuration env
    .ok (readFrames env.frames 1 250)

/-- `processVideo` (part_000 lines 109–120): try native first; fall back
to FFmpeg when the error message signals an unsupported format or an
unknown duration; propagate any other error. -/
def processVideo (env : VideoEnv) : Except PipelineError (List Color) :=
  match processVideoNative env with
  | .ok colors => .ok colors
  | .error e =>
    if fallbackEligible e then processVideoFFmpeg env else .error e

/-- The progress values a full native seek loop reports, in order
(part_000 line 180): `Math.round((currentFrame / FRAME_COUNT) * 100)`
with `currentFrame` = i + 1 after the i-th frame, i = 0 … 239. -/
def nativeProgressValues : List ℤ :=
  (List.range 240).map fun i : ℕ => jsRound (((i : ℚ) + 1) / 240 * 100)

/-- The progress values the native attempt actually reports: nothing
when it rejects before the seek loop (pre-metadata decode error or
unknown duration); the first `k` reports when a decode error interrupts
the loop after `k` frames; all 240 reports on a completed run. -/
def nativeProgressBefore (env : VideoEnv) : List ℤ :=
  if env.nativeDecodeFails then []
  else if env.duration.bad then []
  else
    match env.nativeErrorAt with
    | some k => (List.range (min k 240)).map fun i : ℕ => jsRound (((i : ℚ) + 1) / 240 * 100)
    | none => nativeProgressValues

/-- The progress values a resolving FFmpeg run reports, in order: 1 at
entry (line 193), 10 after preparation (line 255),
`round(10 + (i / 240) * 80)` after the i-th successful frame read
(line 290), and the final 100 (line 300). -/
def ffmpegProgressValues (env : VideoEnv) : List ℤ :=
  1 :: 10 ::
    (((List.range (readFrames env.frames 1 250).length).map fun i : ℕ =>
      jsRound (10 + ((i : ℚ) + 1) / 240 * 80)) ++ [100])

/-- The progress values the fallback attempt reports: nothing when the
native attempt resolved or its error did not trigger the fallback; only
the initial 1 when the large-file gate cancelled; the full fallback
report sequence otherwise. -/
def fallbackPhaseProgress (env : VideoEnv) : List ℤ :=
  match processVideoNative env with
  | .ok _ => []
  | .error e =>
    if fallbackEligible e then
      if largeFileCancelled env then [1] else ffmpegProgressValues env
    else []

/-- All progress values a `processVideo` run passes to the shared
callback, in order: the native attempt's reports (possibly a proper
prefix, if a mid-loop decode error aborted it) followed by the fallback
attempt's reports. -/
def processVideoProgress (env : VideoEnv) : List ℤ :=
  nativeProgressBefore env ++ fallbackPhaseProgress env

/-! Basic facts about `jsRound` and `distSq`. -/

theorem jsRound_eq_floor (q : ℚ) : jsRound q = ⌊q + 1 / 2⌋ := by
  have hden : (q.den : ℚ) ≠ 0 := Nat.cast_ne_zero.mpr q.den_nz
  rw [jsRound, ← Rat.floor_intCast_div_natCast]
  congr 1
  push_cast
  rw [div_eq_iff (by positivity)]
  have hq : (q.num : ℚ) = q * q.den := (div_eq_iff hden).mp (Rat.num_div_den q)
  rw [hq]
  ring

theorem jsRound_mono {p q : ℚ} (h : p ≤ q) : jsRound p ≤ jsRound q := by
  rw [jsRound_eq_floor, jsRound_eq_floor]
  exact Int.floor_le_floor (by linarith)

/-- Justification of the squared-distance embedding: the source compares
`colorDistance c1 c2 < 30` with `colorDistance` a real square root; this
is equivalent to `distSq c1 c2 < 900`. -/
theorem colorDistance_lt_iff (c1 c2 : Color) :
    Real.sqrt ((distSq c1 c2 : ℚ)) < 30 ↔ distSq c1 c2 < 900 := by
  rw [Real.sqrt_lt' (by norm_num : (0 : ℝ) < 30)]
  norm_num [← Rat.cast_lt (K := ℝ)]

/-! ### Cluster-list facts -/

theorem assign_ne_nil (cls : List Cluster) (c : Color) : assign cls c ≠ [] := by
  cases cls with
  | nil => simp [assign]
  | cons cl rest =>
    rw [assign]
    split <;> simp

theorem foldl_assign_ne_nil (colors : List Color) :
    ∀ cls : List Cluster, cls ≠ [] → colors.foldl assign cls ≠ [] := by
  induction colors with
  | nil => intro cls h; simpa using h
  | cons c rest ih =>
    intro cls _
    rw [List.foldl_cons]
    exact ih _ (assign_ne_nil cls c)

theorem buildClusters_ne_nil (colors : List Color) (h : colors ≠ []) :
    buildClusters colors ≠ [] := by
  match colors, h with
  | c :: rest, _ =>
    rw [buildClusters, List.foldl_cons]
    exact foldl_assign_ne_nil rest _ (assign_ne_nil [] c)

theorem sortClusters_length (cls : List Cluster) :
    (sortClusters cls).length = cls.length :=
  List.length_insertionSort clusterGE cls

theorem sortClusters_buildClusters_ne_nil (colors : List Color) (h : colors ≠ []) :
    sortClusters (buildClusters colors) ≠ [] := by
  have := buildClusters_ne_nil colors h
  intro hnil
  apply this
  have hlen := sortClusters_length (buildClusters colors)
  rw [hnil] at hlen
  exact List.length_eq_zero.mp hlen.symm

theorem mem_sortClusters {x : Cluster} {cls : List Cluster} :
    x ∈ sortClusters cls ↔ x ∈ cls :=
  (List.perm_insertionSort clusterGE cls).mem_iff

theorem sorted_sortClusters (cls : List Cluster) :
    List.Sorted clusterGE (sortClusters cls) :=
  List.sorted_insertionSort clusterGE cls

/-- In a list sorted by descending count, the last element's count is
minimal. -/
theorem sorted_getLast_count_le :
    ∀ (l : List Cluster) (h : l ≠ []), List.Sorted clusterGE l →
      ∀ x ∈ l, (l.getLast h).count ≤ x.count := by
  intro l
  induction l with
  | nil => intro h; exact absurd rfl h
  | cons c rest ih =>
    intro _ hs x hx
    cases rest with
    | nil =>
      simp only [List.mem_singleton] at hx
      subst hx
      simp [List.getLast]
    | cons c' rest' =>
      rw [List.getLast_cons (List.cons_ne_nil c' rest')]
      rcases List.mem_cons.mp hx with rfl | hx'
      · have hmem := List.getLast_mem (List.cons_ne_nil c' rest')
        exact (List.pairwise_cons.mp hs).1 _ hmem
      · exact ih (List.cons_ne_nil c' rest') (List.pairwise_cons.mp hs).2 x hx'

/-! ### Sum accumulator facts -/

theorem foldl_add_r (colors : List Color) :
    ∀ init : ℚ, colors.foldl (fun acc c => acc + c.r) init
      = init + (colors.map Color.r).sum := by
  induction colors with
  | nil => simp
  | cons c rest ih => intro init; simp [ih]; ring

theorem foldl_add_g (colors : List Color) :
    ∀ init : ℚ, colors.foldl (fun acc c => acc + c.g) init
      = init + (colors.map Color.g).sum := by
  induction colors with
  | nil => simp
  | cons c rest ih => intro init; simp [ih]; ring

theorem foldl_add_b (colors : List Color) :
    ∀ init : ℚ, colors.foldl (fun acc c => acc + c.b) init
      = init + (colors.map Color.b).sum := by
  induction colors with
  | nil => simp
  | cons c rest ih => intro init; simp [ih]; ring

theorem totalR_eq (colors : List Color) : totalR colors = (colors.map Color.r).sum := by
  rw [totalR, foldl_add_r]; ring

theorem totalG_eq (colors : List Color) : totalG colors = (colors.map Color.g).sum := by
  rw [totalG, foldl_add_g]; ring

theorem totalB_eq (colors : List Color) : totalB colors = (colors.map Color.b).sum := by
  rw [totalB, foldl_add_b]; ring

theorem findIdx?_cons_zero {p : Cluster → Bool} {c : Cluster} {l : List Cluster} :
    (c :: l).findIdx? p = if p c then some 0 else (l.findIdx? p).map (· + 1) := by
  rw [List.findIdx?_cons]
  split
  · rfl
  · rw [List.findIdx?_succ]

theorem updateCluster_eq_spec (cl : Cluster) (color : Color) :
    updateCluster cl color =
      ⟨⟨cl.center.r + (color.r - cl.center.r) / (cl.count + 1),
        cl.center.g + (color.g - cl.center.g) / (cl.count + 1),
        cl.center.b + (color.b - cl.center.b) / (cl.count + 1)⟩,
       cl.count + 1⟩ := by
  have hne : ((cl.count : ℚ) + 1) ≠ 0 := by positivity
  rw [updateCluster]
  congr 1
  congr 1 <;> field_simp <;> ring

theorem assign_eq_assignSpec (clusters : List Cluster) (color : Color) :
    assign clusters color = assignSpec clusters color := by
  induction clusters with
  | nil => simp [assign, assignSpec, List.findIdx?]
  | cons cl rest ih =>
    rw [assign, assignSpec, findIdx?_cons_zero]
    by_cases h : distSq color cl.center < 900
    · rw [if_pos h, if_pos (by simpa using h)]
      simp [updateCluster_eq_spec]
    · rw [if_neg h, if_neg (by simpa using h), ih, assignSpec]
      cases hfind : rest.findIdx? fun c => decide (distSq color c.center < 900) with
      | none => simp [hfind]
      | some i => simp [hfind]

/-! ### Claim theorems about `analyzeColors` -/

/-- C5: `analyzeColors` processes the colors in input order and, for each
incoming color, assigns it to the first existing cluster (scanned in
creation order) whose centroid is within Euclidean RGB distance 30,
updating that cluster's centroid by incremental mean
(`center += (color - center) / newCount`) and incrementing its count;
when no cluster qualifies it appends a new cluster with the color as
centroid and count 1. -/
theorem analyzeColors_clusters_first_fit :
    (∀ (clusters : List Cluster) (color : Color),
        assign clusters color = assignSpec clusters color) ∧
      ∀ colors : List Color, buildClusters colors = colors.foldl assignSpec [] := by
  refine ⟨assign_eq_assignSpec, fun colors => ?_⟩
  rw [buildClusters]
  exact List.foldl_ext assign assignSpec [] fun acc c _ => assign_eq_assignSpec acc c

/-- C6: for every non-empty color sequence, `analyzeColors` succeeds,
its `dominant` is the rounded centroid of a cluster with maximal
membership count, and its `least` the rounded centroid of a cluster with
minimal membership count. -/
theorem analyzeColors_dominant_least (colors : List Color) (h : colors ≠ []) :
    ∃ a cd cl, analyzeColors colors = some a ∧
      cd ∈ buildClusters colors ∧ cl ∈ buildClusters colors ∧
      a.dominant = roundColor cd.center ∧ a.least = roundColor cl.center ∧
      (∀ c ∈ buildClusters colors, c.count ≤ cd.count) ∧
      (∀ c ∈ buildClusters colors, cl.count ≤ c.count) := by
  match colors, h with
  | c0 :: rest, _ =>
    obtain ⟨c, restS, hS⟩ :=
      List.exists_cons_of_ne_nil
        (sortClusters_buildClusters_ne_nil (c0 :: rest) (List.cons_ne_nil c0 rest))
    have hsorted := sorted_sortClusters (buildClusters (c0 :: rest))
    rw [hS] at hsorted
    have hlast_le := sorted_getLast_count_le (c :: restS) (List.cons_ne_nil c restS) hsorted
    have hmemS : ∀ x : Cluster, x ∈ buildClusters (c0 :: rest) ↔ x ∈ c :: restS := by
      intro x
      rw [← hS, mem_sortClusters]
    have ha : analyzeColors (c0 :: rest) =
        some ⟨⟨jsRound (totalR (c0 :: rest) / ((c0 :: rest).length : ℚ)),
               jsRound (totalG (c0 :: rest) / ((c0 :: rest).length : ℚ)),
               jsRound (totalB (c0 :: rest) / ((c0 :: rest).length : ℚ))⟩,
              roundColor c.center,
              roundColor (((c :: restS).getLast (List.cons_ne_nil c restS)).center)⟩ := by
      simp only [analyzeColors, hS]
    refine ⟨_, c, (c :: restS).getLast (List.cons_ne_nil c restS), ha, ?_, ?_, rfl, rfl, ?_, ?_⟩
    · exact (hmemS c).mpr (List.mem_cons_self c restS)
    · exact (hmemS _).mpr (List.getLast_mem (List.cons_ne_nil c restS))
    · intro x hx
      rcases List.mem_cons.mp ((hmemS x).mp hx) with rfl | hx'
      · exact le_refl _
      · exact (List.pairwise_cons.mp hsorted).1 x hx'
    · intro x hx
      exact hlast_le x ((hmemS x).mp hx)

/-- Witness for C6 at the concrete two-color input
`[{255,0,0}, {0,0,10}]`. -/
theorem analyzeColors_dominant_least_witness :
    ([(⟨255, 0, 0⟩ : Color), ⟨0, 0, 10⟩] ≠ []) ∧
      ∃ a cd cl, analyzeColors [(⟨255, 0, 0⟩ : Color), ⟨0, 0, 10⟩] = some a ∧
        cd ∈ buildClusters [(⟨255, 0, 0⟩ : Color), ⟨0, 0, 10⟩] ∧
        cl ∈ buildClusters [(⟨255, 0, 0⟩ : Color), ⟨0, 0, 10⟩] ∧
        a.dominant = roundColor cd.center ∧ a.least = roundColor cl.center ∧
        (∀ c ∈ buildClusters [(⟨255, 0, 0⟩ : Color), ⟨0, 0, 10⟩], c.count ≤ cd.count) ∧
        (∀ c ∈ buildClusters [(⟨255, 0, 0⟩ : Color), ⟨0, 0, 10⟩], cl.count ≤ c.count) :=
  ⟨by simp, analyzeColors_dominant_least _ (by simp)⟩

/-- C7: for every non-empty color sequence, `analyzeColors` succeeds and
its `average` is the component-wise arithmetic mean of all entries, each
channel rounded (half-up) to the nearest integer. -/
theorem analyzeColors_average_mean (colors : List Color) (h : colors ≠ []) :
    ∃ a, analyzeColors colors = some a ∧
      a.average = ⟨jsRound ((colors.map Color.r).sum / colors.length),
                   jsRound ((colors.map Color.g).sum / colors.length),
                   jsRound ((colors.map Color.b).sum / colors.length)⟩ := by
  match colors, h with
  | c0 :: rest, _ =>
    obtain ⟨c, restS, hS⟩ :=
      List.exists_cons_of_ne_nil
        (sortClusters_buildClusters_ne_nil (c0 :: rest) (List.cons_ne_nil c0 rest))
    have ha : analyzeColors (c0 :: rest) =
        some ⟨⟨jsRound (totalR (c0 :: rest) / ((c0 :: rest).length : ℚ)),
               jsRound (totalG (c0 :: rest) / ((c0 :: rest).length : ℚ)),
               jsRound (totalB (c0 :: rest) / ((c0 :: rest).length : ℚ))⟩,
              roundColor c.center,
              roundColor (((c :: restS).getLast (List.cons_ne_nil c restS)).center)⟩ := by
      simp only [analyzeColors, hS]
    refine ⟨_, ha, ?_⟩
    simp only [totalR_eq, totalG_eq, totalB_eq]

/-! ### The single-cluster case -/

/-- Cauchy–Schwarz for list sums: `(Σ xᵢ)² ≤ n · Σ xᵢ²`. -/
theorem sq_sum_le_length_mul_sum_sq (l : List ℚ) :
    l.sum ^ 2 ≤ l.length * (l.map fun x => x ^ 2).sum := by
  induction l with
  | nil => simp
  | cons a t ih =>
    have hQ : 0 ≤ (t.map fun x => x ^ 2).sum :=
      List.sum_nonneg fun x hx => by
        obtain ⟨y, _, rfl⟩ := List.mem_map.mp hx
        positivity
    cases t with
    | nil => simp
    | cons b t' =>
      set S := (b :: t').sum with hSdef
      set Q := ((b :: t').map fun x => x ^ 2).sum with hQdef
      set n : ℚ := ((b :: t').length : ℚ) with hndef
      have hn : 1 ≤ n := by
        rw [hndef]
        exact_mod_cast Nat.succ_le_of_lt (Nat.pos_of_ne_zero (by simp))
      have key : n * ((n + 1) * (a ^ 2 + Q) - (a + S) ^ 2)
          = (n * a - S) ^ 2 + (n + 1) * (n * Q - S ^ 2) := by ring
      have h1 : 0 ≤ (n * a - S) ^ 2 + (n + 1) * (n * Q - S ^ 2) :=
        add_nonneg (sq_nonneg _)
          (mul_nonneg (by linarith) (by rw [hndef]; linarith [ih]))
      have h2 : 0 ≤ n * ((n + 1) * (a ^ 2 + Q) - (a + S) ^ 2) := key ▸ h1
      have h3 : (0 : ℚ) < n := by linarith
      have h4 : 0 ≤ (n + 1) * (a ^ 2 + Q) - (a + S) ^ 2 :=
        nonneg_of_mul_nonneg_right h2 h3
      rw [List.sum_cons, ← hSdef, List.map_cons, List.sum_cons, ← hQdef,
        List.length_cons]
      push_cast
      rw [← hndef]
      linarith [h4]

/-- `Σ (q - f m) = n·q - Σ f m` over a list. -/
theorem sum_map_const_sub (q : ℚ) (f : Color → ℚ) (ms : List Color) :
    (ms.map fun m => q - f m).sum = (ms.length : ℚ) * q - (ms.map f).sum := by
  induction ms with
  | nil => simp
  | cons m t ih =>
    simp only [List.map_cons, List.sum_cons, List.length_cons, ih]
    push_cast
    ring

/-- A nonempty list of rationals all below a bound sums below `bound · n`. -/
theorem sum_lt_of_all_lt (l : List ℚ) (bound : ℚ) (hne : l ≠ [])
    (hall : ∀ x ∈ l, x < bound) : l.sum < bound * l.length := by
  induction l with
  | nil => exact absurd rfl hne
  | cons a t ih =>
    cases t with
    | nil => simpa using hall a (by simp)
    | cons b t' =>
      have ha := hall a (by simp)
      have ht := ih (List.cons_ne_nil b t') fun x hx => hall x (List.mem_cons_of_mem a hx)
      simp only [List.sum_cons, List.length_cons] at *
      push_cast at *
      linarith

/-- Additivity of list sums over a pointwise sum of three functions. -/
theorem sum_map_add3 (f g h : Color → ℚ) (ms : List Color) :
    (ms.map fun m => f m + g m + h m).sum
      = (ms.map f).sum + (ms.map g).sum + (ms.map h).sum := by
  induction ms with
  | nil => simp
  | cons m t ih =>
    simp only [List.map_cons, List.sum_cons, ih]
    ring

/-- Key geometric fact: a color within (squared) distance 900 of every
member of a nonempty list is within 900 of the list's mean. -/
theorem distSq_meanColor_lt (x : Color) (ms : List Color) (hne : ms ≠ [])
    (hall : ∀ m ∈ ms, distSq x m < 900) :
    distSq x (meanColor ms) < 900 := by
  have hn0 : ms.length ≠ 0 := fun h => hne (List.length_eq_zero.mp h)
  have hn : (0 : ℚ) < (ms.length : ℚ) := by exact_mod_cast Nat.pos_of_ne_zero hn0
  set n : ℚ := (ms.length : ℚ) with hndef
  set Sr : ℚ := (ms.map fun m => x.r - m.r).sum with hSr
  set Sg : ℚ := (ms.map fun m => x.g - m.g).sum with hSg
  set Sb : ℚ := (ms.map fun m => x.b - m.b).sum with hSb
  have hmean : distSq x (meanColor ms) = (Sr ^ 2 + Sg ^ 2 + Sb ^ 2) / n ^ 2 := by
    rw [distSq, meanColor, hSr, hSg, hSb]
    simp only [sum_map_const_sub, ← hndef]
    field_simp
    ring
  have hr := sq_sum_le_length_mul_sum_sq (ms.map fun m => x.r - m.r)
  have hg := sq_sum_le_length_mul_sum_sq (ms.map fun m => x.g - m.g)
  have hb := sq_sum_le_length_mul_sum_sq (ms.map fun m => x.b - m.b)
  simp only [List.length_map, List.map_map] at hr hg hb
  have hsum : ((ms.map fun m => ((x.r - m.r) ^ 2)).sum
      + (ms.map fun m => ((x.g - m.g) ^ 2)).sum
      + (ms.map fun m => ((x.b - m.b) ^ 2)).sum)
      = (ms.map fun m => distSq x m).sum := by
    rw [← sum_map_add3]
    simp only [distSq]
  have hdist : (ms.map fun m => distSq x m).sum < 900 * n := by
    have := sum_lt_of_all_lt (ms.map fun m => distSq x m) 900
      (by simpa using hne)
      (fun y hy => by
        obtain ⟨m, hm, rfl⟩ := List.mem_map.mp hy
        exact hall m hm)
    simpa [hndef] using this
  rw [hmean, div_lt_iff (by positivity)]
  have hcomp : Sr ^ 2 + Sg ^ 2 + Sb ^ 2
      ≤ n * ((ms.map fun m => distSq x m).sum) := by
    rw [← hsum]
    have hrr : Sr ^ 2 ≤ n * (ms.map fun m => (x.r - m.r) ^ 2).sum := by
      rw [hSr]
      convert hr using 2
    have hgg : Sg ^ 2 ≤ n * (ms.map fun m => (x.g - m.g) ^ 2).sum := by
      rw [hSg]
      convert hg using 2
    have hbb : Sb ^ 2 ≤ n * (ms.map fun m => (x.b - m.b) ^ 2).sum := by
      rw [hSb]
      convert hb using 2
    linarith
  calc Sr ^ 2 + Sg ^ 2 + Sb ^ 2
      ≤ n * ((ms.map fun m => distSq x m).sum) := hcomp
    _ < n * (900 * n) := by
        exact (mul_lt_mul_left hn).mpr hdist
    _ = 900 * n ^ 2 := by ring

theorem updateCluster_mean (done : List Color) (x : Color) (hdone : done ≠ []) :
    updateCluster ⟨meanColor done, done.length⟩ x
      = ⟨meanColor (done ++ [x]), done.length + 1⟩ := by
  have hn : ((done.length : ℚ)) ≠ 0 :=
    Nat.cast_ne_zero.mpr fun h => hdone (List.length_eq_zero.mp h)
  rw [updateCluster, meanColor, meanColor]
  simp only [List.map_append, List.sum_append, List.length_append, List.map_cons,
    List.map_nil, List.sum_cons, List.sum_nil, List.length_cons, List.length_nil]
  congr 1
  congr 1 <;> (push_cast; field_simp; try ring)

/-- Under the pairwise-closeness hypothesis the clustering loop keeps a
single cluster whose centroid is the running mean. -/
theorem foldl_assign_single (rest : List Color) :
    ∀ done : List Color, done ≠ [] →
      (∀ c1 ∈ done ++ rest, ∀ c2 ∈ done ++ rest, distSq c1 c2 < 900) →
      rest.foldl assign [⟨meanColor done, done.length⟩]
        = [⟨meanColor (done ++ rest), (done ++ rest).length⟩] := by
  induction rest with
  | nil => intro done _ _; simp
  | cons x rest' ih =>
    intro done hdone hpw
    rw [List.foldl_cons]
    have hx_done : ∀ m ∈ done, distSq x m < 900 := fun m hm =>
      hpw x (by simp) m (List.mem_append_left _ hm)
    have hd : distSq x (meanColor done) < 900 :=
      distSq_meanColor_lt x done hdone hx_done
    have hstep : assign [⟨meanColor done, done.length⟩] x
        = [⟨meanColor (done ++ [x]), (done ++ [x]).length⟩] := by
      simp only [assign, if_pos hd]
      rw [updateCluster_mean done x hdone]
      simp
    rw [hstep]
    have hpw' : ∀ c1 ∈ (done ++ [x]) ++ rest', ∀ c2 ∈ (done ++ [x]) ++ rest',
        distSq c1 c2 < 900 := by
      intro c1 h1 c2 h2
      rw [List.append_assoc] at h1 h2
      exact hpw c1 (by simpa using h1) c2 (by simpa using h2)
    have := ih (done ++ [x]) (by simp) hpw'
    rw [this, List.append_assoc]
    simp

theorem buildClusters_single (colors : List Color) (hne : colors ≠ [])
    (hpw : ∀ c1 ∈ colors, ∀ c2 ∈ colors, distSq c1 c2 < 900) :
    buildClusters colors = [⟨meanColor colors, colors.length⟩] := by
  match colors, hne, hpw with
  | c :: rest, _, hpw =>
    rw [buildClusters, List.foldl_cons]
    have h1 : assign [] c = [⟨c, 1⟩] := rfl
    have h2 : (⟨c, 1⟩ : Cluster) = ⟨meanColor [c], [c].length⟩ := by
      cases c
      simp [meanColor]
    rw [h1, h2]
    exact foldl_assign_single rest [c] (by simp) hpw

/-- C8: when every pair of input colors is within the clustering
threshold (squared Euclidean RGB distance below 900, i.e. distance below
30), `analyzeColors` forms a single cluster and returns
`dominant = least = average`. -/
theorem analyzeColors_pairwise_close (colors : List Color) (hne : colors ≠ [])
    (hpw : ∀ c1 ∈ colors, ∀ c2 ∈ colors, distSq c1 c2 < 900) :
    (buildClusters colors).length = 1 ∧
      ∃ a, analyzeColors colors = some a ∧
        a.dominant = a.least ∧ a.dominant = a.average := by
  match colors, hne, hpw with
  | c0 :: rest, hne, hpw =>
    have hsingle := buildClusters_single (c0 :: rest) hne hpw
    have hS : sortClusters (buildClusters (c0 :: rest))
        = [⟨meanColor (c0 :: rest), (c0 :: rest).length⟩] := by
      rw [hsingle]
      rfl
    have ha : analyzeColors (c0 :: rest) =
        some ⟨⟨jsRound (totalR (c0 :: rest) / ((c0 :: rest).length : ℚ)),
               jsRound (totalG (c0 :: rest) / ((c0 :: rest).length : ℚ)),
               jsRound (totalB (c0 :: rest) / ((c0 :: rest).length : ℚ))⟩,
              roundColor (meanColor (c0 :: rest)),
              roundColor (meanColor (c0 :: rest))⟩ := by
      simp only [analyzeColors, hS]
      rfl
    refine ⟨by rw [hsingle]; rfl, _, ha, rfl, ?_⟩
    simp only [roundColor, meanColor, totalR_eq, totalG_eq, totalB_eq]

/-- Witness for C8 at the concrete input `[{0,0,0}, {3,4,0}]`
(Euclidean distance 5, below the threshold 30). -/
theorem analyzeColors_pairwise_close_witness :
    (([(⟨0, 0, 0⟩ : Color), ⟨3, 4, 0⟩] : List Color) ≠ [] ∧
        ∀ c1 ∈ [(⟨0, 0, 0⟩ : Color), ⟨3, 4, 0⟩],
          ∀ c2 ∈ [(⟨0, 0, 0⟩ : Color), ⟨3, 4, 0⟩], distSq c1 c2 < 900) ∧
      (buildClusters [(⟨0, 0, 0⟩ : Color), ⟨3, 4, 0⟩]).length = 1 ∧
        ∃ a, analyzeColors [(⟨0, 0, 0⟩ : Color), ⟨3, 4, 0⟩] = some a ∧
          a.dominant = a.least ∧ a.dominant = a.average := by
  have hpw : ∀ c1 ∈ [(⟨0, 0, 0⟩ : Color), ⟨3, 4, 0⟩],
      ∀ c2 ∈ [(⟨0, 0, 0⟩ : Color), ⟨3, 4, 0⟩], distSq c1 c2 < 900 := by
    intro c1 h1 c2 h2
    fin_cases h1 <;> fin_cases h2 <;> norm_num [distSq]
  exact ⟨⟨by simp, hpw⟩,
    analyzeColors_pairwise_close [(⟨0, 0, 0⟩ : Color), ⟨3, 4, 0⟩] (by simp) hpw⟩

/-! ### Frame property of the clustering loop on the heap -/

theorem scanClusters_some (s : Store) (color : Color) :
    ∀ (cls : List HCluster) (s' : Store) (cls' : List HCluster),
      scanClusters s color cls = some (s', cls') →
      (∃ cl ∈ cls, s' = s.write cl.centerAddr
          (updateCluster ⟨s.read cl.centerAddr, cl.count⟩ color).center) ∧
        ∀ cl' ∈ cls', ∃ cl ∈ cls, cl'.centerAddr = cl.centerAddr := by
  intro cls
  induction cls with
  | nil => intro s' cls' h; simp [scanClusters] at h
  | cons cl rest ih =>
    intro s' cls' h
    rw [scanClusters] at h
    by_cases hd : distSq color (s.read cl.centerAddr) < 900
    · rw [if_pos hd] at h
      obtain ⟨rfl, rfl⟩ : _ ∧ _ := by
        have := Option.some.inj h
        exact ⟨congrArg Prod.fst this |>.symm, congrArg Prod.snd this |>.symm⟩
      refine ⟨⟨cl, List.mem_cons_self cl rest, rfl⟩, ?_⟩
      intro cl' h'
      rcases List.mem_cons.mp h' with rfl | h''
      · exact ⟨cl, List.mem_cons_self cl rest, rfl⟩
      · exact ⟨cl', List.mem_cons_of_mem cl h'', rfl⟩
    · rw [if_neg hd] at h
      cases hrec : scanClusters s color rest with
      | none => rw [hrec] at h; exact absurd h (by simp)
      | some pr =>
        obtain ⟨sB, restB⟩ := pr
        rw [hrec] at h
        have hinj := Option.some.inj h
        have hs : s' = sB := (congrArg Prod.fst hinj).symm
        have hc : cls' = cl :: restB := (congrArg Prod.snd hinj).symm
        rw [hs, hc]
        obtain ⟨⟨cl0, hm0, hstore⟩, hsub⟩ := ih sB restB hrec
        refine ⟨⟨cl0, List.mem_cons_of_mem cl hm0, hstore⟩, ?_⟩
        intro cl' h'
        rcases List.mem_cons.mp h' with rfl | h''
        · exact ⟨cl', List.mem_cons_self cl' rest, rfl⟩
        · obtain ⟨cl1, hm1, he⟩ := hsub cl' h''
          exact ⟨cl1, List.mem_cons_of_mem cl hm1, he⟩

theorem assignHeap_inv (s0 s : Store) (cls : List HCluster) (addr : ℕ)
    (hlen : s0.cells.length ≤ s.cells.length)
    (hread : ∀ b < s0.cells.length, s.read b = s0.read b)
    (hcls : ∀ cl ∈ cls, s0.cells.length ≤ cl.centerAddr) :
    s0.cells.length ≤ (assignHeap s cls addr).1.cells.length ∧
      (∀ b < s0.cells.length, (assignHeap s cls addr).1.read b = s0.read b) ∧
      ∀ cl ∈ (assignHeap s cls addr).2, s0.cells.length ≤ cl.centerAddr := by
  cases hscan : scanClusters s (s.read addr) cls with
  | some pr =>
    obtain ⟨s', cls'⟩ := pr
    obtain ⟨⟨cl, hm, rfl⟩, hsub⟩ := scanClusters_some s _ cls s' cls' hscan
    simp only [assignHeap, hscan]
    refine ⟨?_, ?_, ?_⟩
    · simpa [Store.write, List.length_set] using hlen
    · intro b hb
      have hne : cl.centerAddr ≠ b := by
        have := hcls cl hm
        omega
      rw [← hread b hb]
      simp [Store.write, Store.read, List.getD, List.getElem?_set_ne hne]
    · intro cl' h'
      obtain ⟨cl0, hm0, heq⟩ := hsub cl' h'
      rw [heq]
      exact hcls cl0 hm0
  | none =>
    simp only [assignHeap, hscan, Store.alloc]
    refine ⟨?_, ?_, ?_⟩
    · simp only [List.length_append, List.length_cons, List.length_nil]
      omega
    · intro b hb
      rw [← hread b hb]
      simp only [Store.read]
      exact List.getD_append _ _ _ _ (by omega)
    · intro cl' h'
      rcases List.mem_append.mp h' with h'' | h''
      · exact hcls cl' h''
      · simp only [List.mem_singleton] at h''
        subst h''
        exact hlen

theorem buildClustersHeap_inv (addrs : List ℕ) (s0 : Store) :
    ∀ (s : Store) (cls : List HCluster),
      s0.cells.length ≤ s.cells.length →
      (∀ b < s0.cells.length, s.read b = s0.read b) →
      (∀ cl ∈ cls, s0.cells.length ≤ cl.centerAddr) →
      ∀ b < s0.cells.length,
        (addrs.foldl (fun acc a => assignHeap acc.1 acc.2 a) (s, cls)).1.read b
          = s0.read b := by
  induction addrs with
  | nil => intro s cls _ hread _ b hb; exact hread b hb
  | cons a rest ih =>
    intro s cls hlen hread hcls b hb
    rw [List.foldl_cons]
    obtain ⟨h1, h2, h3⟩ := assignHeap_inv s0 s cls a hlen hread hcls
    exact ih (assignHeap s cls a).1 (assignHeap s cls a).2 h1 h2 h3 b hb

/-- C10: the clustering loop of `analyzeColors` never mutates the color
objects its input array references — after the pass, every address that
was a valid reference before the call reads the same color object as
before.  (Cluster centroids start as `{ ...color }` copies and centroid
updates write only to those copies.) -/
theorem buildClustersHeap_preserves_input (s : Store) (addrs : List ℕ)
    (hvalid : ∀ a ∈ addrs, a < s.cells.length) :
    ∀ b < s.cells.length, (buildClustersHeap s addrs).1.read b = s.read b := by
  intro b hb
  exact buildClustersHeap_inv addrs s s [] le_rfl (fun _ _ => rfl) (by simp) b hb

/-- Witness for C10: a store of two color objects, the second referenced
twice; both cells read back unchanged. -/
theorem buildClustersHeap_preserves_input_witness :
    (∀ a ∈ [1, 1, 0], a < (Store.mk [⟨200, 0, 0⟩, ⟨3, 4, 0⟩]).cells.length) ∧
      ∀ b < (Store.mk [(⟨200, 0, 0⟩ : Color), ⟨3, 4, 0⟩]).cells.length,
        (buildClustersHeap (Store.mk [(⟨200, 0, 0⟩ : Color), ⟨3, 4, 0⟩]) [1, 1, 0]).1.read b
          = (Store.mk [(⟨200, 0, 0⟩ : Color), ⟨3, 4, 0⟩]).read b :=
  ⟨by simp,
    buildClustersHeap_preserves_input (Store.mk [(⟨200, 0, 0⟩ : Color), ⟨3, 4, 0⟩])
      [1, 1, 0] (by simp)⟩

/-- Witness for C7 at the concrete input `[{1,2,3}, {5,6,7}]`. -/
theorem analyzeColors_average_mean_witness :
    ([(⟨1, 2, 3⟩ : Color), ⟨5, 6, 7⟩] ≠ []) ∧
      ∃ a, analyzeColors [(⟨1, 2, 3⟩ : Color), ⟨5, 6, 7⟩] = some a ∧
        a.average =
          ⟨jsRound ((([(⟨1, 2, 3⟩ : Color), ⟨5, 6, 7⟩].map Color.r).sum : ℚ) / 2),
           jsRound ((([(⟨1, 2, 3⟩ : Color), ⟨5, 6, 7⟩].map Color.g).sum : ℚ) / 2),
           jsRound ((([(⟨1, 2, 3⟩ : Color), ⟨5, 6, 7⟩].map Color.b).sum : ℚ) / 2)⟩ := by
  refine ⟨by simp, ?_⟩
  have := analyzeColors_average_mean [(⟨1, 2, 3⟩ : Color), ⟨5, 6, 7⟩] (by simp)
  simpa using this

/-! ### Pipeline facts -/

theorem readFrames_spec (frames : ℕ → Option Color) :
    ∀ (fuel i : ℕ),
      (readFrames frames i fuel).length ≤ fuel ∧
        (∀ k < (readFrames frames i fuel).length, (frames (i + k)).isSome) ∧
        ((readFrames frames i fuel).length < fuel →
          frames (i + (readFrames frames i fuel).length) = none) := by
  intro fuel
  induction fuel with
  | zero => intro i; simp [readFrames]
  | succ fuel ih =>
    intro i
    rw [readFrames]
    cases hf : frames i with
    | none =>
      refine ⟨by simp, by simp, fun _ => ?_⟩
      simpa using hf
    | some c =>
      obtain ⟨hlen, hsome, hnone⟩ := ih (i + 1)
      refine ⟨by simpa using hlen, ?_, ?_⟩
      · intro k hk
        cases k with
        | zero => simp [hf]
        | succ k' =>
          have : k' < (readFrames frames (i + 1) fuel).length := by
            simpa using hk
          have := hsome k' this
          simpa [Nat.add_assoc, Nat.add_comm 1 k'] using this
      · intro hlt
        have hlt' : (readFrames frames (i + 1) fuel).length < fuel := by
          simpa using hlt
        have := hnone hlt'
        simp only [List.length_cons]
        simpa [Nat.add_assoc, Nat.add_comm 1 _] using this

theorem readFrames_length_eq (frames : ℕ → Option Color) :
    ∀ (fuel i k : ℕ), k ≤ fuel → (∀ j < k, (frames (i + j)).isSome) →
      (k < fuel → frames (i + k) = none) →
      (readFrames frames i fuel).length = k := by
  intro fuel
  induction fuel with
  | zero => intro i k hk _ _; simp [readFrames]; omega
  | succ fuel ih =>
    intro i k hk hok hnone
    rw [readFrames]
    cases k with
    | zero =>
      have h0 : frames i = none := by simpa using hnone (by omega)
      rw [h0]
      simp
    | succ k' =>
      have h0 : (frames i).isSome := by simpa using hok 0 (by omega)
      obtain ⟨c, hc⟩ := Option.isSome_iff_exists.mp h0
      rw [hc]
      simp only [List.length_cons]
      rw [ih (i + 1) k' (by omega)
        (fun j hj => by simpa [Nat.add_assoc, Nat.add_comm 1 j] using hok (j + 1) (by omega))
        (fun hlt => by simpa [Nat.add_assoc, Nat.add_comm 1 k'] using hnone (by omega))]

theorem nativeColors_length (env : VideoEnv) : (nativeColors env).length = 240 := by
  simp [nativeColors]

/-- C1 (amended): a resolving native run yields exactly 240 colors; a
resolving software-fallback run yields one color per consecutively
readable numbered frame file starting at index 1, capped at 250 — a
count that need not be 240. -/
theorem processVideo_resolved_length (env1 env2 : VideoEnv)
    (colors1 colors2 : List Color)
    (h1 : processVideoNative env1 = .ok colors1)
    (h2 : processVideoFFmpeg env2 = .ok colors2) :
    colors1.length = 240 ∧
      colors2.length ≤ 250 ∧
        (∀ k < colors2.length, (env2.frames (1 + k)).isSome) ∧
        (colors2.length < 250 → env2.frames (1 + colors2.length) = none) := by
  rw [processVideoNative] at h1
  split_ifs at h1
  have hc1 : colors1 = nativeColors env1 := by
    cases he : env1.nativeErrorAt with
    | none => simp only [he] at h1; exact (Except.ok.inj h1).symm
    | some k =>
      simp only [he] at h1
      by_cases hk : k < 240
      · rw [if_pos hk] at h1; exact absurd h1 (by simp)
      · rw [if_neg hk] at h1; exact (Except.ok.inj h1).symm
  rw [processVideoFFmpeg] at h2
  split_ifs at h2
  have hc2 : colors2 = readFrames env2.frames 1 250 := (Except.ok.inj h2).symm
  subst hc1
  subst hc2
  exact ⟨nativeColors_length env1, readFrames_spec env2.frames 250 1⟩

/-- Witness for C1: a native run over a 60-second video with all
captures succeeding, and a fallback run whose engine produced no frame
files at all. -/
theorem processVideo_resolved_length_witness :
    (processVideoNative ⟨false, none, .val 60, fun _ => some ⟨7, 7, 7⟩, 0, true, [], fun _ => none⟩
        = .ok (nativeColors ⟨false, none, .val 60, fun _ => some ⟨7, 7, 7⟩, 0, true, [], fun _ => none⟩) ∧
      processVideoFFmpeg ⟨false, none, .val 60, fun _ => some ⟨7, 7, 7⟩, 0, true, [], fun _ => none⟩
        = .ok []) ∧
      (nativeColors ⟨false, none, .val 60, fun _ => some ⟨7, 7, 7⟩, 0, true, [], fun _ => none⟩).length = 240 ∧
        ([] : List Color).length ≤ 250 ∧
          (∀ k < ([] : List Color).length,
            ((fun _ => none : ℕ → Option Color) (1 + k)).isSome) ∧
          (([] : List Color).length < 250 →
            (fun _ => none : ℕ → Option Color) (1 + ([] : List Color).length) = none) := by
  have h1 : processVideoNative ⟨false, none, .val 60, fun _ => some ⟨7, 7, 7⟩, 0, true, [], fun _ => none⟩
      = .ok (nativeColors ⟨false, none, .val 60, fun _ => some ⟨7, 7, 7⟩, 0, true, [], fun _ => none⟩) := by
    rw [processVideoNative]
    norm_num [JsDuration.bad]
  have h2 : processVideoFFmpeg ⟨false, none, .val 60, fun _ => some ⟨7, 7, 7⟩, 0, true, [], fun _ => none⟩
      = .ok [] := by
    rw [processVideoFFmpeg]
    have hread : readFrames (fun _ => none) 1 250 = [] := by
      rw [show (250 : ℕ) = 249 + 1 from rfl, readFrames]
    norm_num [largeFileCancelled, hread]
  exact ⟨⟨h1, h2⟩, processVideo_resolved_length _ _ _ _ h1 h2⟩

/-- C1 counterexample: a run of `processVideo` that resolves (through
the software fallback: infinite reported duration, engine produced no
frames) with 0 colors rather than 240. -/
theorem processVideo_length_counterexample :
    processVideo ⟨false, none, .infinite, fun _ => some ⟨1, 2, 3⟩, 0, true, [], fun _ => none⟩
        = .ok ([] : List Color) ∧ ([] : List Color).length ≠ 240 := by
  constructor
  · rw [processVideo, processVideoNative]
    have hread : readFrames (fun _ => none) 1 250 = [] := by
      rw [show (250 : ℕ) = 249 + 1 from rfl, readFrames]
    norm_num [JsDuration.bad, fallbackEligible, processVideoFFmpeg, largeFileCancelled, hread]
  · simp

/-! ### Progress reporting -/

theorem pairwise_le_map_range (n : ℕ) (f : ℕ → ℤ) (hf : ∀ a b : ℕ, a ≤ b → f a ≤ f b) :
    List.Pairwise (· ≤ ·) ((List.range n).map f) :=
  List.Pairwise.map f (fun a b hab => hf a b (le_of_lt hab)) (List.pairwise_lt_range n)

theorem nativeProgress_mono (a b : ℕ) (hab : a ≤ b) :
    jsRound (((a : ℚ) + 1) / 240 * 100) ≤ jsRound (((b : ℚ) + 1) / 240 * 100) := by
  apply jsRound_mono
  have h : (a : ℚ) ≤ b := by exact_mod_cast hab
  gcongr

theorem nativeProgressValues_pairwise :
    List.Pairwise (· ≤ ·) nativeProgressValues :=
  pairwise_le_map_range 240 _ nativeProgress_mono

theorem nativeProgressValues_getLast :
    nativeProgressValues.getLast? = some 100 := by
  rw [nativeProgressValues, show (240 : ℕ) = 239 + 1 from rfl, List.range_succ,
    List.map_append, List.map_singleton, List.getLast?_concat]
  norm_num [jsRound_eq_floor]

theorem ffmpegProgress_mono (a b : ℕ) (hab : a ≤ b) :
    jsRound (10 + ((a : ℚ) + 1) / 240 * 80) ≤ jsRound (10 + ((b : ℚ) + 1) / 240 * 80) := by
  apply jsRound_mono
  have h : (a : ℚ) ≤ b := by exact_mod_cast hab
  gcongr

theorem ffmpegProgress_ge_ten (i : ℕ) :
    (10 : ℤ) ≤ jsRound (10 + ((i : ℚ) + 1) / 240 * 80) := by
  have h10 : jsRound 10 = 10 := by norm_num [jsRound_eq_floor]
  have hpos : (0 : ℚ) ≤ ((i : ℚ) + 1) / 240 * 80 := by positivity
  calc (10 : ℤ) = jsRound 10 := h10.symm
    _ ≤ jsRound (10 + ((i : ℚ) + 1) / 240 * 80) := jsRound_mono (by linarith)

theorem ffmpegProgress_le_hundred (i : ℕ) (hi : i ≤ 249) :
    jsRound (10 + ((i : ℚ) + 1) / 240 * 80) ≤ 100 := by
  have h249 : jsRound (10 + (((249 : ℕ) : ℚ) + 1) / 240 * 80) = 93 := by
    rw [jsRound_eq_floor]
    rw [show (10 : ℚ) + (((249 : ℕ) : ℚ) + 1) / 240 * 80 + 1 / 2 = 563 / 6 by push_cast; norm_num]
    rw [Int.floor_eq_iff]
    norm_num
  have hm := ffmpegProgress_mono i 249 hi
  omega

theorem ffmpegProgressValues_pairwise (env : VideoEnv) :
    List.Pairwise (· ≤ ·) (ffmpegProgressValues env) := by
  rw [ffmpegProgressValues]
  have hlen : (readFrames env.frames 1 250).length ≤ 250 :=
    (readFrames_spec env.frames 250 1).1
  have hmem : ∀ x ∈ ((List.range (readFrames env.frames 1 250).length).map fun i : ℕ =>
      jsRound (10 + ((i : ℚ) + 1) / 240 * 80)), 10 ≤ x ∧ x ≤ 100 := by
    intro x hx
    obtain ⟨i, hi, rfl⟩ := List.mem_map.mp hx
    have hi' : i < (readFrames env.frames 1 250).length := List.mem_range.mp hi
    exact ⟨ffmpegProgress_ge_ten i, ffmpegProgress_le_hundred i (by omega)⟩
  refine List.pairwise_cons.mpr ⟨?_, List.pairwise_cons.mpr ⟨?_, ?_⟩⟩
  · intro x hx
    rcases List.mem_cons.mp hx with rfl | hx'
    · norm_num
    · rcases List.mem_append.mp hx' with hx'' | hx''
      · have := (hmem x hx'').1
        omega
      · simp only [List.mem_singleton] at hx''
        omega
  · intro x hx
    rcases List.mem_append.mp hx with hx'' | hx''
    · exact (hmem x hx'').1
    · simp only [List.mem_singleton] at hx''
      omega
  · rw [List.pairwise_append]
    refine ⟨pairwise_le_map_range _ _ ffmpegProgress_mono, by simp, ?_⟩
    intro a ha b hb
    simp only [List.mem_singleton] at hb
    subst hb
    exact (hmem a ha).2

theorem ffmpegProgressValues_getLast (env : VideoEnv) :
    (ffmpegProgressValues env).getLast? = some 100 := by
  rw [ffmpegProgressValues, List.getLast?_cons_cons, List.getLast?_cons,
    List.getLast?_concat]
  rfl

/-- Evaluation rule for `jsRound` at a concrete rational. -/
theorem jsRound_eq (q : ℚ) (z : ℤ) (h1 : (z : ℚ) ≤ q + 1 / 2) (h2 : q + 1 / 2 < z + 1) :
    jsRound q = z := by
  rw [jsRound_eq_floor]
  exact Int.floor_eq_iff.mpr ⟨h1, h2⟩

/-- The native attempt's reported progress is non-decreasing, whatever
point it stops at. -/
theorem nativeProgressBefore_pairwise (env : VideoEnv) :
    List.Pairwise (· ≤ ·) (nativeProgressBefore env) := by
  rw [nativeProgressBefore]
  split_ifs
  · exact List.Pairwise.nil
  · exact List.Pairwise.nil
  · cases env.nativeErrorAt with
    | some k => exact pairwise_le_map_range _ _ nativeProgress_mono
    | none => exact nativeProgressValues_pairwise

/-- The fallback attempt's reported progress is non-decreasing. -/
theorem fallbackPhaseProgress_pairwise (env : VideoEnv) :
    List.Pairwise (· ≤ ·) (fallbackPhaseProgress env) := by
  cases hn : processVideoNative env with
  | ok cs =>
    simp only [fallbackPhaseProgress, hn]
    exact List.Pairwise.nil
  | error e =>
    simp only [fallbackPhaseProgress, hn]
    split_ifs
    · exact List.pairwise_singleton _ _
    · exact ffmpegProgressValues_pairwise env
    · exact List.Pairwise.nil

/-- A native attempt that resolves has reported the full 240-value
progress sequence. -/
theorem nativeProgressBefore_of_ok (env : VideoEnv) (cs : List Color)
    (h : processVideoNative env = .ok cs) :
    nativeProgressBefore env = nativeProgressValues := by
  rw [processVideoNative] at h
  rw [nativeProgressBefore]
  by_cases h1 : env.nativeDecodeFails
  · rw [if_pos h1] at h
    exact absurd h (by simp)
  · rw [if_neg h1] at h ⊢
    by_cases h2 : env.duration.bad
    · rw [if_pos h2] at h
      exact absurd h (by simp)
    · rw [if_neg h2] at h ⊢
      cases he : env.nativeErrorAt with
      | none => rfl
      | some k =>
        simp only [he] at h
        by_cases hk : k < 240
        · rw [if_pos hk] at h
          exact absurd h (by simp)
        · have hmin : min k 240 = 240 := Nat.min_eq_right (by omega)
          simp only [hmin]
          rfl

/-- C2 (amended): every resolving `processVideo` run reports 100 as its
final progress value, and the values reported within each decode attempt
(native, fallback) are non-decreasing; the whole sequence, however, need
not be non-decreasing — when a mid-stream native decode error triggers
the fallback, reported progress regresses to the fallback's initial 1 —
and 100 is not reserved for final completion, since the native path's
penultimate report `round(100·239/240)` already equals 100 (both shown
in the counterexample theorem). -/
theorem processVideoProgress_monotone_final (env : VideoEnv) (colors : List Color)
    (h : processVideo env = .ok colors) :
    (processVideoProgress env).getLast? = some 100 ∧
      List.Pairwise (· ≤ ·) (nativeProgressBefore env) ∧
      List.Pairwise (· ≤ ·) (fallbackPhaseProgress env) := by
  refine ⟨?_, nativeProgressBefore_pairwise env, fallbackPhaseProgress_pairwise env⟩
  rw [processVideoProgress]
  cases hn : processVideoNative env with
  | ok cs =>
    simp only [fallbackPhaseProgress, hn, List.append_nil]
    rw [nativeProgressBefore_of_ok env cs hn]
    exact nativeProgressValues_getLast
  | error e =>
    simp only [processVideo, hn] at h
    by_cases he : fallbackEligible e
    · rw [if_pos he] at h
      have hcancel : largeFileCancelled env = false := by
        rw [processVideoFFmpeg] at h
        by_contra hc
        rw [if_pos (by simpa using hc)] at h
        exact absurd h (by simp)
      simp only [fallbackPhaseProgress, hn, if_pos he, hcancel, Bool.false_eq_true, if_false]
      rw [List.getLast?_append, ffmpegProgressValues_getLast env]
      rfl
    · rw [if_neg he] at h
      exact absurd h (by simp)

/-- Witness for C2: a resolving native run over a 60-second video. -/
theorem processVideoProgress_monotone_final_witness :
    processVideo ⟨false, none, .val 60, fun _ => some ⟨1, 2, 3⟩, 0, true, [], fun _ => none⟩
        = .ok (nativeColors ⟨false, none, .val 60, fun _ => some ⟨1, 2, 3⟩, 0, true, [], fun _ => none⟩) ∧
      ((processVideoProgress ⟨false, none, .val 60, fun _ => some ⟨1, 2, 3⟩, 0, true, [], fun _ => none⟩).getLast?
          = some 100 ∧
        List.Pairwise (· ≤ ·)
          (nativeProgressBefore ⟨false, none, .val 60, fun _ => some ⟨1, 2, 3⟩, 0, true, [], fun _ => none⟩) ∧
        List.Pairwise (· ≤ ·)
          (fallbackPhaseProgress ⟨false, none, .val 60, fun _ => some ⟨1, 2, 3⟩, 0, true, [], fun _ => none⟩)) := by
  have h : processVideo ⟨false, none, .val 60, fun _ => some ⟨1, 2, 3⟩, 0, true, [], fun _ => none⟩
      = .ok (nativeColors ⟨false, none, .val 60, fun _ => some ⟨1, 2, 3⟩, 0, true, [], fun _ => none⟩) := by
    rw [processVideo, processVideoNative]
    norm_num [JsDuration.bad]
  exact ⟨h, processVideoProgress_monotone_final _ _ h⟩

/-- C2 counterexample, in two parts.  (a) A mid-stream native decode
error after 5 frames (the handler of part_000 line 138 stays active
through the seek loop) sends the run to the fallback, which resolves; the
callback receives `[0, 1, 1, 2, 2, 1, 10, 100]`, which regresses from 2
to 1 — the progress sequence of a resolving run is not non-decreasing.
(b) On a fully native resolving run the value 100 is already reported at
the 239th of the 240 reports (`round(100·239/240) = 100`), i.e. before
final completion. -/
theorem progress_claim_counterexample :
    (processVideo ⟨false, some 5, .val 60, fun _ => some ⟨1, 2, 3⟩, 0, true, [], fun _ => none⟩
        = .ok ([] : List Color) ∧
      processVideoProgress ⟨false, some 5, .val 60, fun _ => some ⟨1, 2, 3⟩, 0, true, [], fun _ => none⟩
          = [0, 1, 1, 2, 2, 1, 10, 100] ∧
      ¬ List.Pairwise (· ≤ ·)
          (processVideoProgress ⟨false, some 5, .val 60, fun _ => some ⟨1, 2, 3⟩, 0, true, [], fun _ => none⟩)) ∧
      processVideo ⟨false, none, .val 60, fun _ => some ⟨1, 2, 3⟩, 0, true, [], fun _ => none⟩
          = .ok (nativeColors ⟨false, none, .val 60, fun _ => some ⟨1, 2, 3⟩, 0, true, [], fun _ => none⟩) ∧
        processVideoProgress ⟨false, none, .val 60, fun _ => some ⟨1, 2, 3⟩, 0, true, [], fun _ => none⟩
            = nativeProgressValues ∧
        nativeProgressValues[238]? = some 100 ∧ nativeProgressValues.length = 240 := by
  have hread : readFrames (fun _ => none) 1 250 = [] := by
    rw [show (250 : ℕ) = 249 + 1 from rfl, readFrames]
  have hn5 : processVideoNative ⟨false, some 5, .val 60, fun _ => some ⟨1, 2, 3⟩, 0, true, [], fun _ => none⟩
      = .error .formatNotSupported := by
    rw [processVideoNative]
    norm_num [JsDuration.bad]
  have hNpb : nativeProgressBefore ⟨false, some 5, .val 60, fun _ => some ⟨1, 2, 3⟩, 0, true, [], fun _ => none⟩
      = [0, 1, 1, 2, 2] := by
    rw [nativeProgressBefore]
    rw [if_neg (by norm_num), if_neg (by norm_num [JsDuration.bad])]
    show (List.range (min 5 240)).map _ = _
    rw [show min 5 240 = 5 from rfl, show List.range 5 = [0, 1, 2, 3, 4] from rfl]
    simp only [List.map_cons, List.map_nil]
    rw [jsRound_eq ((((0 : ℕ) : ℚ) + 1) / 240 * 100) 0 (by push_cast; norm_num) (by push_cast; norm_num),
      jsRound_eq ((((1 : ℕ) : ℚ) + 1) / 240 * 100) 1 (by push_cast; norm_num) (by push_cast; norm_num),
      jsRound_eq ((((2 : ℕ) : ℚ) + 1) / 240 * 100) 1 (by push_cast; norm_num) (by push_cast; norm_num),
      jsRound_eq ((((3 : ℕ) : ℚ) + 1) / 240 * 100) 2 (by push_cast; norm_num) (by push_cast; norm_num),
      jsRound_eq ((((4 : ℕ) : ℚ) + 1) / 240 * 100) 2 (by push_cast; norm_num) (by push_cast; norm_num)]
  have hFpb : fallbackPhaseProgress ⟨false, some 5, .val 60, fun _ => some ⟨1, 2, 3⟩, 0, true, [], fun _ => none⟩
      = [1, 10, 100] := by
    simp only [fallbackPhaseProgress, hn5]
    rw [if_pos (by norm_num [fallbackEligible]), if_neg (by norm_num [largeFileCancelled])]
    rw [ffmpegProgressValues]
    simp [hread]
  have htrace : processVideoProgress ⟨false, some 5, .val 60, fun _ => some ⟨1, 2, 3⟩, 0, true, [], fun _ => none⟩
      = [0, 1, 1, 2, 2, 1, 10, 100] := by
    rw [processVideoProgress, hNpb, hFpb]
    rfl
  have hn : processVideoNative ⟨false, none, .val 60, fun _ => some ⟨1, 2, 3⟩, 0, true, [], fun _ => none⟩
      = .ok (nativeColors ⟨false, none, .val 60, fun _ => some ⟨1, 2, 3⟩, 0, true, [], fun _ => none⟩) := by
    rw [processVideoNative]
    norm_num [JsDuration.bad]
  refine ⟨⟨?_, htrace, ?_⟩, ?_, ?_, ?_, ?_⟩
  · simp [processVideo, hn5, fallbackEligible, processVideoFFmpeg, largeFileCancelled, hread]
  · rw [htrace]
    decide
  · simp only [processVideo, hn]
  · rw [processVideoProgress, nativeProgressBefore_of_ok _ _ hn]
    simp only [fallbackPhaseProgress, hn, List.append_nil]
  · rw [nativeProgressValues, List.getElem?_map]
    have hrange : (List.range 240)[238]? = some 238 := by
      simp
    rw [hrange, Option.map_some']
    rw [jsRound_eq ((((238 : ℕ) : ℚ) + 1) / 240 * 100) 100 (by push_cast; norm_num)
      (by push_cast; norm_num)]
  · simp [nativeProgressValues]

/-! ### Per-frame failure handling and duration errors -/

theorem readFrames_stops_after_one (c : Color) (f : ℕ → Option Color)
    (h1 : f 1 = some c) (h2 : f 2 = none) : readFrames f 1 250 = [c] := by
  have e1 : readFrames f 1 250 = c :: readFrames f 2 249 := by
    rw [show (250 : ℕ) = 249 + 1 from rfl, readFrames, h1]
  have e2 : readFrames f 2 249 = [] := by
    rw [show (249 : ℕ) = 248 + 1 from rfl, readFrames, h2]
  rw [e1, e2]

/-- C3 (amended): on the native path a failed frame capture contributes
the black sentinel at its index, does not abort the job and leaves the
length at 240; on the software-fallback path a failed frame read instead
terminates the read loop — the job still resolves, but with exactly the
frames before the first failure and no sentinel entry. -/
theorem frame_failure_handling (env1 env2 : VideoEnv) (i : ℕ) (hi : i < 240)
    (hd : env1.nativeDecodeFails = false) (hdur : env1.duration.bad = false)
    (herr : env1.nativeErrorAt = none)
    (hfail : env1.capture i = none)
    (k : ℕ) (hk : k < 250) (hok : ∀ j < k, (env2.frames (1 + j)).isSome)
    (hkfail : env2.frames (1 + k) = none)
    (hcancel : largeFileCancelled env2 = false) :
    (processVideoNative env1 = .ok (nativeColors env1) ∧
      (nativeColors env1).length = 240 ∧
      (nativeColors env1)[i]? = some blackColor) ∧
      ∃ colors, processVideoFFmpeg env2 = .ok colors ∧ colors.length = k := by
  refine ⟨⟨?_, nativeColors_length env1, ?_⟩, ?_⟩
  · simp [processVideoNative, hd, hdur, herr]
  · rw [nativeColors, List.getElem?_map]
    have hrange : (List.range 240)[i]? = some i := by
      simp [hi]
    rw [hrange, Option.map_some', hfail]
    rfl
  · exact ⟨readFrames env2.frames 1 250, by simp [processVideoFFmpeg, hcancel],
      readFrames_length_eq env2.frames 250 1 k (by omega) hok (fun _ => hkfail)⟩

/-- Witness for C3: a native run whose capture of frame 5 fails, and a
fallback run whose engine produced frames 1–3 and then stopped. -/
theorem frame_failure_handling_witness :
    ((5 : ℕ) < 240 ∧
      (processVideoNative ⟨false, none, .val 60, fun i => if i = 5 then none else some ⟨1, 2, 3⟩,
          0, true, [], fun _ => none⟩
        = .ok (nativeColors ⟨false, none, .val 60, fun i => if i = 5 then none else some ⟨1, 2, 3⟩,
          0, true, [], fun _ => none⟩) ∧
      (nativeColors ⟨false, none, .val 60, fun i => if i = 5 then none else some ⟨1, 2, 3⟩,
          0, true, [], fun _ => none⟩).length = 240 ∧
      (nativeColors ⟨false, none, .val 60, fun i => if i = 5 then none else some ⟨1, 2, 3⟩,
          0, true, [], fun _ => none⟩)[5]? = some blackColor)) ∧
      ∃ colors,
        processVideoFFmpeg ⟨false, none, .nan, fun _ => none, 0, true, [],
            fun i => if i ≤ 3 then some ⟨4, 4, 4⟩ else none⟩ = .ok colors ∧
          colors.length = 3 := by
  have h := frame_failure_handling
    ⟨false, none, .val 60, fun i => if i = 5 then none else some ⟨1, 2, 3⟩, 0, true, [], fun _ => none⟩
    ⟨false, none, .nan, fun _ => none, 0, true, [], fun i => if i ≤ 3 then some ⟨4, 4, 4⟩ else none⟩
    5 (by norm_num) rfl (by norm_num [JsDuration.bad]) rfl (by norm_num)
    3 (by norm_num)
    (fun j hj => by
      have : 1 + j ≤ 3 := by omega
      simp [this])
    (by norm_num)
    (by norm_num [largeFileCancelled])
  exact ⟨⟨by norm_num, h.1⟩, h.2⟩

/-- C3 counterexample: on the software-fallback path, the failed read of
frame 2 produces no black sentinel and shortens the result — the run
resolves with a single non-black color instead of 240 entries. -/
theorem fallback_frame_failure_counterexample :
    processVideoFFmpeg ⟨false, none, .nan, fun _ => none, 0, true, [],
        fun i => if i = 2 then none else some ⟨9, 9, 9⟩⟩ = .ok [⟨9, 9, 9⟩] ∧
      (⟨9, 9, 9⟩ : Color) ≠ blackColor ∧ ([(⟨9, 9, 9⟩ : Color)]).length ≠ 240 := by
  refine ⟨?_, ?_, by norm_num⟩
  · have hread := readFrames_stops_after_one ⟨9, 9, 9⟩
      (fun i => if i = 2 then none else some ⟨9, 9, 9⟩) (by norm_num) (by norm_num)
    simp [processVideoFFmpeg, largeFileCancelled, hread]
  · intro h
    have := congrArg Color.r h
    norm_num [blackColor] at this

/-- C4 (amended): an undeterminable duration (missing, zero or infinite)
makes the native path reject with the duration-unknown error before any
seek is issued and with no samples produced; the top-level operation
then falls back to the software decode path instead of failing with that
error. -/
theorem duration_unknown_native (env : VideoEnv)
    (hd : env.nativeDecodeFails = false) (hbad : env.duration.bad = true) :
    processVideoNative env = .error .durationUnknown ∧
      nativeSeekTimes env = [] ∧
      processVideo env = processVideoFFmpeg env := by
  have h1 : processVideoNative env = .error .durationUnknown := by
    simp [processVideoNative, hd, hbad]
  refine ⟨h1, ?_, ?_⟩
  · cases hdur : env.duration with
    | nan => simp [nativeSeekTimes, hdur]
    | infinite => simp [nativeSeekTimes, hdur]
    | val d =>
      rw [hdur] at hbad
      simp only [JsDuration.bad, decide_eq_true_eq] at hbad
      simp [nativeSeekTimes, hdur, hbad]
  · simp [processVideo, h1, fallbackEligible]

/-- Witness for C4 at a video reporting `duration = Infinity`. -/
theorem duration_unknown_native_witness :
    ((⟨false, none, .infinite, fun _ => some ⟨1, 1, 1⟩, 0, true, [], fun _ => none⟩ : VideoEnv).nativeDecodeFails = false ∧
      (⟨false, none, .infinite, fun _ => some ⟨1, 1, 1⟩, 0, true, [], fun _ => none⟩ : VideoEnv).duration.bad = true) ∧
      processVideoNative ⟨false, none, .infinite, fun _ => some ⟨1, 1, 1⟩, 0, true, [], fun _ => none⟩
          = .error .durationUnknown ∧
        nativeSeekTimes ⟨false, none, .infinite, fun _ => some ⟨1, 1, 1⟩, 0, true, [], fun _ => none⟩ = [] ∧
        processVideo ⟨false, none, .infinite, fun _ => some ⟨1, 1, 1⟩, 0, true, [], fun _ => none⟩
          = processVideoFFmpeg ⟨false, none, .infinite, fun _ => some ⟨1, 1, 1⟩, 0, true, [], fun _ => none⟩ :=
  ⟨⟨rfl, rfl⟩, duration_unknown_native _ rfl rfl⟩

/-- C4 counterexample: with `duration = Infinity` the sampling operation
as a whole does not fail — it resolves with a sample produced by the
fallback engine. -/
theorem duration_unknown_counterexample :
    (⟨false, none, .infinite, fun _ => some ⟨1, 2, 3⟩, 0, true, [],
        fun i => if i = 1 then some ⟨9, 9, 9⟩ else none⟩ : VideoEnv).duration = .infinite ∧
      processVideo ⟨false, none, .infinite, fun _ => some ⟨1, 2, 3⟩, 0, true, [],
          fun i => if i = 1 then some ⟨9, 9, 9⟩ else none⟩ = .ok [⟨9, 9, 9⟩] := by
  refine ⟨rfl, ?_⟩
  have hread := readFrames_stops_after_one ⟨9, 9, 9⟩
    (fun i => if i = 1 then some ⟨9, 9, 9⟩ else none) (by norm_num) (by norm_num)
  have hn : processVideoNative ⟨false, none, .infinite, fun _ => some ⟨1, 2, 3⟩, 0, true, [],
      fun i => if i = 1 then some ⟨9, 9, 9⟩ else none⟩ = .error .durationUnknown := rfl
  simp [processVideo, hn, fallbackEligible, processVideoFFmpeg, largeFileCancelled, hread]

/-- C9: when the duration probe recovers nothing from the engine's log
(`duration === 0`), the fallback path substitutes an assumed duration of
7200 seconds (2 hours), extracts at the corresponding frame rate, and
resolves rather than failing. -/
theorem ffmpeg_duration_guess (env : VideoEnv)
    (hprobe : probedDuration env = 0)
    (hcancel : largeFileCancelled env = false) :
    ffmpegEffectiveDuration env = 7200 ∧
      ffmpegFps env = 240 / 7200 ∧
      ∃ colors, processVideoFFmpeg env = .ok colors := by
  have h1 : ffmpegEffectiveDuration env = 7200 := by
    simp [ffmpegEffectiveDuration, hprobe]
  exact ⟨h1, by rw [ffmpegFps, h1],
    ⟨readFrames env.frames 1 250, by simp [processVideoFFmpeg, hcancel]⟩⟩

/-- Witness for C9: an environment whose probe log contained no
duration line. -/
theorem ffmpeg_duration_guess_witness :
    (probedDuration ⟨false, none, .nan, fun _ => none, 0, true, [], fun _ => none⟩ = 0 ∧
      largeFileCancelled ⟨false, none, .nan, fun _ => none, 0, true, [], fun _ => none⟩ = false) ∧
      ffmpegEffectiveDuration ⟨false, none, .nan, fun _ => none, 0, true, [], fun _ => none⟩ = 7200 ∧
        ffmpegFps ⟨false, none, .nan, fun _ => none, 0, true, [], fun _ => none⟩ = 240 / 7200 ∧
        ∃ colors, processVideoFFmpeg ⟨false, none, .nan, fun _ => none, 0, true, [], fun _ => none⟩
          = .ok colors :=
  ⟨⟨rfl, by norm_num [largeFileCancelled]⟩,
    ffmpeg_duration_guess _ rfl (by norm_num [largeFileCancelled])⟩

end PaletteCut
